import Mathlib

/-!
Verification of the GitHub event-monitor service (`src/main.py`).

The Python program is shallowly embedded: JSON values are modelled by an
inductive `Json` type, Python dictionary/attribute operations that can raise
are modelled in `Except Unit`, and the module-level mutable state
(`poll_state`, `events`, `seen_event_ids`) is threaded explicitly through an
`AppState` record.  Each definition mirrors the function of the same name in
`src/main.py`.
-/

/-- A JSON value as handled by the Python program (`resp.json()` output and
nested payload fields). -/
inductive Json where
  | null
  | bool (b : Bool)
  | num (n : Int)
  | str (s : String)
  | arr (elems : List Json)
  | obj (fields : List (String × Json))

mutual

/-- Structural equality test on `Json`, mirroring Python `==` on parsed JSON
values. -/
def Json.beq : Json → Json → Bool
  | .null, .null => true
  | .bool a, .bool b => a == b
  | .num a, .num b => a == b
  | .str a, .str b => a == b
  | .arr as, .arr bs => Json.beqList as bs
  | .obj fs, .obj gs => Json.beqFields fs gs
  | _, _ => false

def Json.beqList : List Json → List Json → Bool
  | [], [] => true
  | a :: as, b :: bs => Json.beq a b && Json.beqList as bs
  | _, _ => false

def Json.beqFields : List (String × Json) → List (String × Json) → Bool
  | [], [] => true
  | (k, v) :: fs, (k2, v2) :: gs => k == k2 && Json.beq v v2 && Json.beqFields fs gs
  | _, _ => false

end

mutual

theorem Json.beq_iff : ∀ (a b : Json), Json.beq a b = true ↔ a = b
  | .null, b => by cases b <;> simp [Json.beq]
  | .bool x, b => by cases b <;> simp [Json.beq]
  | .num x, b => by cases b <;> simp [Json.beq]
  | .str x, b => by cases b <;> simp [Json.beq]
  | .arr as, b => by
      cases b with
      | arr bs =>
          have h := Json.beqList_iff as bs
          simp only [Json.beq, h, Json.arr.injEq]
      | null => simp [Json.beq]
      | bool x => simp [Json.beq]
      | num n => simp [Json.beq]
      | str s => simp [Json.beq]
      | obj fs => simp [Json.beq]
  | .obj fs, b => by
      cases b with
      | obj gs =>
          have h := Json.beqFields_iff fs gs
          simp only [Json.beq, h, Json.obj.injEq]
      | null => simp [Json.beq]
      | bool x => simp [Json.beq]
      | num n => simp [Json.beq]
      | str s => simp [Json.beq]
      | arr as => simp [Json.beq]

theorem Json.beqList_iff : ∀ (as bs : List Json), Json.beqList as bs = true ↔ as = bs
  | [], bs => by cases bs <;> simp [Json.beqList]
  | a :: as, [] => by simp [Json.beqList]
  | a :: as, b :: bs => by
      have h1 := Json.beq_iff a b
      have h2 := Json.beqList_iff as bs
      simp [Json.beqList, h1, h2]

theorem Json.beqFields_iff :
    ∀ (fs gs : List (String × Json)), Json.beqFields fs gs = true ↔ fs = gs
  | [], gs => by cases gs <;> simp [Json.beqFields]
  | (k, v) :: fs, [] => by simp [Json.beqFields]
  | (k, v) :: fs, (k2, v2) :: gs => by
      have h1 := Json.beq_iff v v2
      have h2 := Json.beqFields_iff fs gs
      simp [Json.beqFields, h1, h2]

end

instance : DecidableEq Json := fun a b => decidable_of_iff _ (Json.beq_iff a b)

/-! ### Python dictionary / object primitives

Operations of the Python data model used by `main.py`.  Operations that can
raise (`d[k]`, `.get` on a non-dict, `len` on a non-sized value, iteration,
string methods on non-strings) live in `Except Unit`; the error value stands
for a raised exception. -/

/-- Key lookup in the field list of a JSON object (first occurrence). -/
def jlookup (fs : List (String × Json)) (k : String) : Option Json :=
  (fs.find? (fun kv => kv.1 == k)).map (fun kv => kv.2)

/-- Python `d.get(k)` on a dict: the value, or `None` when absent. -/
def jget (fs : List (String × Json)) (k : String) : Json :=
  (jlookup fs k).getD .null

/-- Python `d.get(k, default)` on a dict. -/
def jgetD (fs : List (String × Json)) (k : String) (d : Json) : Json :=
  (jlookup fs k).getD d

/-- Python `x.get(k, default)` where `x` is an arbitrary value: raises
(`AttributeError`) when `x` is not a dict. -/
def pyGetD (j : Json) (k : String) (d : Json) : Except Unit Json :=
  match j with
  | .obj fs => .ok (jgetD fs k d)
  | _ => .error ()

/-- Python `x.get(k)` where `x` is an arbitrary value. -/
def pyGet (j : Json) (k : String) : Except Unit Json :=
  pyGetD j k .null

/-- Python `d[k]` (subscription by string key): raises on a non-dict value or
a missing key. -/
def pyIndexStr (j : Json) (k : String) : Except Unit Json :=
  match j with
  | .obj fs =>
      match jlookup fs k with
      | some v => .ok v
      | none => .error ()
  | _ => .error ()

/-- Python truthiness of a JSON value. -/
def pyTruthy : Json → Bool
  | .null => false
  | .bool b => b
  | .num n => !(n == 0)
  | .str s => !(s == "")
  | .arr l => !l.isEmpty
  | .obj fs => !fs.isEmpty

/-- Python `len(x)`: raises on values without a length. -/
def pyLen : Json → Except Unit Nat
  | .str s => .ok s.length
  | .arr l => .ok l.length
  | .obj fs => .ok fs.length
  | _ => .error ()

/-- Python iteration `for c in x`: list elements, characters of a string
(as one-character strings), or the keys of a dict; raises otherwise. -/
def pyIter : Json → Except Unit (List Json)
  | .arr l => .ok l
  | .str s => .ok (s.toList.map (fun c => .str (String.singleton c)))
  | .obj fs => .ok (fs.map (fun kv => .str kv.1))
  | _ => .error ()

/-- `True` when the character list `n` occurs contiguously inside `h`. -/
def hasSubseq (n : List Char) : List Char → Bool
  | [] => n.isEmpty
  | c :: t => n.isPrefixOf (c :: t) || hasSubseq n t

/-- Python `needle in x`: substring test on strings, membership on lists,
key membership on dicts; raises otherwise. -/
def pyContains (needle : String) : Json → Except Unit Bool
  | .str s => .ok (hasSubseq needle.toList s.toList)
  | .arr l => .ok (decide (Json.str needle ∈ l))
  | .obj fs => .ok (fs.any (fun kv => kv.1 == needle))
  | _ => .error ()

/-- Python `s.split(sep)` for a one-character separator, over the character
list of the string: `"".split(sep) == ['']`, adjacent separators produce
empty components. -/
def splitOnChar (sep : Char) : List Char → List (List Char)
  | [] => [[]]
  | c :: t =>
      let r := splitOnChar sep t
      if c = sep then [] :: r
      else (c :: r.headD []) :: r.tail

/-- Python `x.split('/')[-1]`: last component of a slash-split; raises when
`x` is not a string.  `str.split` always yields a non-empty list, so the
`[-1]` subscription itself cannot fail. -/
def pySplitSlashLast : Json → Except Unit String
  | .str s => .ok (((splitOnChar '/' s.toList).map List.asString).getLastD "")
  | _ => .error ()

/-- Python `x.split('\n')[0]`: first line; raises when `x` is not a string. -/
def pyFirstLine : Json → Except Unit String
  | .str s => .ok (((splitOnChar '\n' s.toList).map List.asString).headD "")
  | _ => .error ()

/-- Python `list(x.keys())`: raises when `x` is not a dict. -/
def pyKeys : Json → Except Unit (List String)
  | .obj fs => .ok (fs.map (fun kv => kv.1))
  | _ => .error ()

/-! ### Event classifier (`process_event_payload`, `main.py` lines 37-111) -/

/-- The normalized record built by `process_event_payload`. -/
structure ClassifiedEvent where
  repo : Json
  id : Json
  type : Json
  user : Json
  details : List (String × Json)
  created_at : Json
  recorded_at : String
deriving DecidableEq

/-- The list comprehension
`[c.get("message", "No message").split('\n')[0] for c in commits]`. -/
def commitMessages : List Json → Except Unit (List String)
  | [] => .ok []
  | c :: cs =>
      match pyGetD c "message" (.str "No message") with
      | .error e => .error e
      | .ok m =>
          match pyFirstLine m with
          | .error e => .error e
          | .ok line =>
              match commitMessages cs with
              | .error e => .error e
              | .ok rest => .ok (line :: rest)

/-- The `PushEvent` branch of `process_event_payload` (lines 43-66). -/
def pushDetails (payload : Json) : Except Unit (List (String × Json)) :=
  match pyGetD payload "commits" (.arr []) with
  | .error e => .error e
  | .ok commits =>
      match pyGetD payload "ref" (.str "") with
      | .error e => .error e
      | .ok ref_full =>
          match (if pyTruthy ref_full then pySplitSlashLast ref_full else .ok "unknown") with
          | .error e => .error e
          | .ok branch_or_tag =>
              match pyContains "refs/tags/" ref_full with
              | .error e => .error e
              | .ok isTag =>
                  if isTag then
                    match pyLen commits with
                    | .error e => .error e
                    | .ok n =>
                        .ok [("action", .str "Pushed Tag"),
                             ("tag", .str branch_or_tag),
                             ("commit_count", .num (Int.ofNat n))]
                  else
                    match pyLen commits with
                    | .error e => .error e
                    | .ok n =>
                        if n > 0 then
                          match pyIter commits with
                          | .error e => .error e
                          | .ok items =>
                              match commitMessages items with
                              | .error e => .error e
                              | .ok msgs =>
                                  .ok [("action", .str "Pushed Commits"),
                                       ("branch", .str branch_or_tag),
                                       ("commit_count", .num (Int.ofNat n)),
                                       ("messages", .arr (msgs.map .str))]
                        else
                          .ok [("action", .str "Pushed (No Commits)"),
                               ("ref", ref_full),
                               ("note", .str "This is often a force-push, branch deletion, or other ref update.")]

/-- The `details` dispatch of `process_event_payload` on the event type
(lines 43-101). -/
def detailsFor (e_type : Json) (payload : Json) : Except Unit (List (String × Json)) :=
  if e_type = .str "PushEvent" then
    pushDetails payload
  else if e_type = .str "IssuesEvent" then
    match pyGetD payload "issue" (.obj []) with
    | .error e => .error e
    | .ok issue =>
        match pyGet payload "action" with
        | .error e => .error e
        | .ok a =>
            match pyGet issue "title" with
            | .error e => .error e
            | .ok t =>
                match pyGet issue "html_url" with
                | .error e => .error e
                | .ok u => .ok [("action", a), ("title", t), ("url", u)]
  else if e_type = .str "PullRequestEvent" then
    match pyGetD payload "pull_request" (.obj []) with
    | .error e => .error e
    | .ok pr =>
        match pyGet payload "action" with
        | .error e => .error e
        | .ok a =>
            match pyGet pr "title" with
            | .error e => .error e
            | .ok t =>
                match pyGet pr "html_url" with
                | .error e => .error e
                | .ok u => .ok [("action", a), ("title", t), ("url", u)]
  else if e_type = .str "WatchEvent" then
    match pyGet payload "action" with
    | .error e => .error e
    | .ok a => .ok [("action", a)]
  else if e_type = .str "ForkEvent" then
    match pyGetD payload "forkee" (.obj []) with
    | .error e => .error e
    | .ok forkee =>
        match pyGet forkee "html_url" with
        | .error e => .error e
        | .ok u => .ok [("fork_url", u)]
  else if e_type = .str "CreateEvent" then
    match pyGet payload "ref_type" with
    | .error e => .error e
    | .ok rt =>
        match pyGet payload "ref" with
        | .error e => .error e
        | .ok r =>
            match pyGet payload "description" with
            | .error e => .error e
            | .ok d => .ok [("ref_type", rt), ("ref", r), ("description", d)]
  else if e_type = .str "DeleteEvent" then
    match pyGet payload "ref_type" with
    | .error e => .error e
    | .ok rt =>
        match pyGet payload "ref" with
        | .error e => .error e
        | .ok r => .ok [("ref_type", rt), ("ref", r)]
  else
    match pyGet payload "action" with
    | .error e => .error e
    | .ok a =>
        if pyTruthy a then
          .ok [("action", a)]
        else
          match pyKeys payload with
          | .error e => .error e
          | .ok ks => .ok [("unhandled_event", .bool true), ("payload_keys", .arr (ks.map .str))]

/-- `process_event_payload(event)` for a dict event, capturing at time `now`
(the value `datetime.utcnow().isoformat() + "Z"`). -/
def process_event_payload (fs : List (String × Json)) (now : String) :
    Except Unit ClassifiedEvent :=
  let e_type := jget fs "type"
  let payload := jgetD fs "payload" (.obj [])
  match detailsFor e_type payload with
  | .error e => .error e
  | .ok details =>
      match pyGet (jgetD fs "repo" (.obj [])) "name" with
      | .error e => .error e
      | .ok repoName =>
          match pyGet (jgetD fs "actor" (.obj [])) "login" with
          | .error e => .error e
          | .ok userName =>
              .ok { repo := repoName, id := jget fs "id", type := e_type,
                    user := userName, details := details,
                    created_at := jget fs "created_at", recorded_at := now }

/-- `process_event_payload` applied to an arbitrary JSON value (a non-dict
argument raises at the first `event.get`). -/
def classifyEvent (e : Json) (now : String) : Except Unit ClassifiedEvent :=
  match e with
  | .obj fs => process_event_payload fs now
  | _ => .error ()

/-! ### Resource identifier parser (`extract_repo`, lines 30-35)

`re.search(r"github\.com/([\w-]+/[\w.-]+)", url)` followed by
`.group(1).rstrip('/')`.  Python's `re` on a `str` pattern is
Unicode-aware, so the word class `\w` is not a fixed ASCII table; the
matcher is therefore parameterized by the word-class predicate
`W : Char → Bool`, and every fact proved about it assumes only
`W '/' = false`, which holds of Python's `\w` (`'/'` is not a word
character).  At each start position the classes are matched greedily
and the literal part exactly; regex backtracking cannot produce further
matches at that position, because shortening a greedy `[\w-]+` run only
exposes a character of the class, never the `'/'` the pattern requires
next (the class excludes `'/'`).  `re.search` tries every start position
from the left. -/

/-- The regex class `[\w-]` (the owner part), over the word class `W`. -/
def ownerCharW (W : Char → Bool) (c : Char) : Bool := W c || c == '-'

/-- The regex class `[\w.-]` (the repository-name part), over `W`. -/
def repoCharW (W : Char → Bool) (c : Char) : Bool := W c || c == '.' || c == '-'

/-- The literal part `github\.com/` of the pattern. -/
def githubLit : List Char := "github.com/".toList

/-- Attempt to match `github\.com/([\w-]+/[\w.-]+)` at the start of `l`,
returning the capture group, over the word class `W`. -/
def matchAtW (W : Char → Bool) (l : List Char) : Option (List Char) :=
  if githubLit.isPrefixOf l then
    let rest := l.drop githubLit.length
    let owner := rest.takeWhile (ownerCharW W)
    if owner.isEmpty then none
    else
      match rest.drop owner.length with
      | c :: rest2 =>
          if c = '/' then
            let rname := rest2.takeWhile (repoCharW W)
            if rname.isEmpty then none else some (owner ++ '/' :: rname)
          else none
      | [] => none
  else none

/-- `re.search`: first start position (from the left) at which the pattern
matches. -/
def searchLocW (W : Char → Bool) : List Char → Option (List Char)
  | [] => matchAtW W []
  | c :: t => (matchAtW W (c :: t)).orElse (fun _ => searchLocW W t)

/-- Python `s.rstrip('/')`. -/
def rstripSlash (l : List Char) : List Char :=
  (l.reverse.dropWhile (fun c => c == '/')).reverse

/-- `extract_repo(url)` over the word class `W`: the captured `user/repo`
with trailing slashes stripped, or `None`. -/
def extract_repoW (W : Char → Bool) (s : String) : Option String :=
  (searchLocW W s.toList).map (fun g => (rstripSlash g).asString)

/-- The input contains a recognizable resource-locator substring: the
pattern matches at some start position. -/
def hasLocatorW (W : Char → Bool) (s : String) : Prop :=
  ∃ t ∈ s.toList.tails, (matchAtW W t).isSome

/-- The ASCII restriction of the word class `\w` (Lean's `Char.isAlphanum`
covers ASCII only).  On ASCII inputs it coincides with Python's Unicode
word class, so it lets the matcher run on the concrete inputs of the
witnesses; the theorems quantify over the word class `W` instead. -/
def isWordChar (c : Char) : Bool := c.isAlphanum || c == '_'

/-- `extract_repo` instantiated at the ASCII restriction of `\w`, for
concrete ASCII inputs (where it agrees with the program). -/
def extract_repo (s : String) : Option String :=
  extract_repoW isWordChar s

/-! ### Global state and HTTP-facing operations -/

/-- One `poll_state[repo]` entry: `{"etag": ..., "last_check": ...}`. -/
structure WatchEntry where
  etag : Option String
  last_check : Option String
deriving DecidableEq

/-- The module-level mutable state of `main.py`: `poll_state`, `events`,
`seen_event_ids`. -/
structure AppState where
  poll_state : List (String × WatchEntry)
  events : List ClassifiedEvent
  seen_event_ids : List Json
deriving DecidableEq

/-- Response of the `POST /subscribe` handler. -/
inductive SubscribeResult where
  | invalidUrl
  | already_subscribed (repo : String)
  | subscribed (repo : String)
deriving DecidableEq

/-- `subscribe_repo` (lines 225-236) over the parser's word class `W`:
parse the URL, reject invalid input with a 400 (`invalidUrl`), and
register the key idempotently. -/
def subscribe_repoW (W : Char → Bool) (s : AppState) (repo_url : String) :
    AppState × SubscribeResult :=
  match extract_repoW W repo_url with
  | none => (s, .invalidUrl)
  | some repo_name =>
      if (s.poll_state.find? (fun kv => kv.1 == repo_name)).isSome then
        (s, .already_subscribed repo_name)
      else
        ({s with poll_state := s.poll_state ++ [(repo_name, ⟨none, none⟩)]},
         .subscribed repo_name)

/-- `subscribe_repo` (lines 225-236): parse the URL, reject invalid input
with a 400 (`invalidUrl`), and register the key idempotently. -/
def subscribe_repo (s : AppState) (repo_url : String) : AppState × SubscribeResult :=
  match extract_repo repo_url with
  | none => (s, .invalidUrl)
  | some repo_name =>
      if (s.poll_state.find? (fun kv => kv.1 == repo_name)).isSome then
        (s, .already_subscribed repo_name)
      else
        ({s with poll_state := s.poll_state ++ [(repo_name, ⟨none, none⟩)]},
         .subscribed repo_name)

/-- `get_events` (`GET /inspect`, lines 238-241): `{count, data}`. -/
def get_events (s : AppState) : Nat × List ClassifiedEvent :=
  (s.events.length, s.events.take 20)

/-- `clear_events` (`DELETE /clear`, lines 243-249): empties `events` and
`seen_event_ids` and answers `"cleared"`. -/
def clear_events (s : AppState) : AppState × String :=
  ({s with events := [], seen_event_ids := []}, "cleared")

/-! ### Poller (`poll_repo_events`, lines 115-172) -/

/-- Truthiness of `GITHUB_TOKEN` (`os.getenv` yields `None` or a string;
the empty string is falsy). -/
def tokenConfigured : Option String → Bool
  | none => false
  | some t => !(t == "")

/-- The guard at the top of `poller_manager` (lines 180-182): the polling
loop starts only when `GITHUB_TOKEN` is truthy. -/
def pollerManagerStarts (tok : Option String) : Bool := tokenConfigured tok

/-- Python `f"token {GITHUB_TOKEN}"` interpolation of the token value. -/
def tokenText : Option String → String
  | none => "None"
  | some t => t

/-- The request headers built in `poll_repo_events` (lines 123-128):
`Accept` and `Authorization` always, `If-None-Match` when a truthy etag is
stored. -/
def buildHeaders (tok : Option String) (etag : Option String) : List (String × String) :=
  let base := [("Accept", "application/vnd.github.v3+json"),
               ("Authorization", "token " ++ tokenText tok)]
  match etag with
  | some e => if e == "" then base else base ++ [("If-None-Match", e)]
  | none => base

/-- The dedup-and-classify loop over `reversed(new_events_data)`
(lines 148-152).  Returns the seen-set after the loop and `some` batch, or
`none` when an exception escaped the loop body (`event_data["id"]` on a
record without an `"id"`, or a raising `process_event_payload`); in the
latter case ids already processed stay recorded. -/
def processLoop (now : String) : List Json → List Json → List Json × Option (List ClassifiedEvent)
  | seen, [] => (seen, some [])
  | seen, e :: rest =>
      match pyIndexStr e "id" with
      | .error _ => (seen, none)
      | .ok idv =>
          if idv ∈ seen then
            processLoop now seen rest
          else
            match classifyEvent e now with
            | .error _ => (idv :: seen, none)
            | .ok r =>
                let res := processLoop now (idv :: seen) rest
                (res.1, res.2.map (fun l => r :: l))

/-- The value returned past the `try` block: the processed batch on success,
`[]` when the generic exception handler ran (line 172). -/
def pollOutput (p : List Json × Option (List ClassifiedEvent)) : List ClassifiedEvent :=
  match p.2 with
  | none => []
  | some l => l

/-- The upstream HTTP outcomes distinguished by `poll_repo_events`. -/
inductive UpstreamResp where
  | notModified304
  | ok200 (etagHdr : Option String) (body : List Json)
  | notFound404
  | unauthorized401
  | forbidden403
  | otherStatus (code : Nat)
  | requestError
deriving DecidableEq

/-- In-place mutation of `poll_state[repo]` through the alias
`repo_state = poll_state.get(repo, {})`: a no-op when the key is absent
(the fresh dict is dropped). -/
def updateEntry (ps : List (String × WatchEntry)) (repo : String)
    (f : WatchEntry → WatchEntry) : List (String × WatchEntry) :=
  ps.map (fun kv => if kv.1 = repo then (kv.1, f kv.2) else kv)

/-- `poll_repo_events(repo, client)` given the upstream response `resp` at
capture time `now`: state transition on `AppState` plus the returned batch.

* any response: `repo_state["last_check"]` is set first (line 134);
* 304: return `[]`;
* 200: store the new etag header (even `None`), run the dedup loop over the
  reversed body, return the batch (or `[]` past the exception handler);
* 404: delete the registry entry;
* 401/403/other/network error: log only, return `[]`. -/
def poll_repo_events (s : AppState) (repo : String) (resp : UpstreamResp)
    (now : String) : AppState × List ClassifiedEvent :=
  let ps1 := updateEntry s.poll_state repo (fun e => {e with last_check := some now})
  let s1 := {s with poll_state := ps1}
  match resp with
  | .notModified304 => (s1, [])
  | .ok200 etagHdr body =>
      let ps2 := updateEntry s1.poll_state repo (fun e => {e with etag := etagHdr})
      let s2 := {s1 with poll_state := ps2}
      let res := processLoop now s2.seen_event_ids body.reverse
      ({s2 with seen_event_ids := res.1}, pollOutput res)
  | .notFound404 =>
      ({s1 with poll_state := s1.poll_state.filter (fun kv => !(kv.1 == repo))}, [])
  | .unauthorized401 => (s1, [])
  | .forbidden403 => (s1, [])
  | .otherStatus _ => (s1, [])
  | .requestError => (s1, [])

/-! ### Poller manager merge step (lines 195-205) -/

/-- Newest-first order on classified events: sorting key `recorded_at`,
`reverse=True`. -/
def recentFirst (a b : ClassifiedEvent) : Prop :=
  b.recorded_at ≤ a.recorded_at

instance : DecidableRel recentFirst := fun a b =>
  inferInstanceAs (Decidable (b.recorded_at ≤ a.recorded_at))

instance : IsTotal ClassifiedEvent recentFirst :=
  ⟨fun a b => le_total b.recorded_at a.recorded_at⟩

instance : IsTrans ClassifiedEvent recentFirst :=
  ⟨fun _ _ _ h1 h2 => le_trans h2 h1⟩

/-- The merge step of `poller_manager`: extend `events` with every non-empty
result, count the new events, and when at least one arrived re-sort
newest-first (a stable sort, like Python `sorted`) and truncate to 200. -/
def mergeStep (events : List ClassifiedEvent) (results : List (List ClassifiedEvent)) :
    List ClassifiedEvent :=
  let extended := results.foldl (fun acc r => if r.isEmpty then acc else acc ++ r) events
  let newCount := results.foldl (fun n r => if r.isEmpty then n else n + r.length) (0 : Nat)
  if newCount > 0 then (List.insertionSort recentFirst extended).take 200 else extended

/-- A sequence of poll cycles over one repository feed: thread the dedup
ledger through `processLoop` (each body reversed as in the 200 branch) and
collect each cycle's returned batch. -/
def runBatches (now : String) : List Json → List (List Json) → List Json × List (List ClassifiedEvent)
  | seen, [] => (seen, [])
  | seen, b :: bs =>
      let p := processLoop now seen b.reverse
      let rest := runBatches now p.1 bs
      (rest.1, pollOutput p :: rest.2)

/-! ### Claim theorems -/

/-- C8: subscribing a key that is already registered answers
`already_subscribed` and leaves the whole state — in particular the stored
etag and last-check timestamp of the existing entry — unchanged. -/
theorem subscribe_idempotent (s : AppState) (url k : String) (e : WatchEntry)
    (hk : extract_repo url = some k) (he : (k, e) ∈ s.poll_state) :
    subscribe_repo s url = (s, .already_subscribed k) := by
  have hf : (s.poll_state.find? (fun kv => kv.1 == k)).isSome := by
    rw [List.find?_isSome]
    exact ⟨(k, e), he, by simp⟩
  simp [subscribe_repo, hk, hf]

/-- Witness for `subscribe_idempotent` at a concrete state and URL. -/
theorem subscribe_idempotent_witness :
    subscribe_repo ⟨[("a/b", ⟨some "W", some "L"⟩)], [], []⟩ "https://github.com/a/b" =
      (⟨[("a/b", ⟨some "W", some "L"⟩)], [], []⟩, .already_subscribed "a/b") :=
  subscribe_idempotent ⟨[("a/b", ⟨some "W", some "L"⟩)], [], []⟩
    "https://github.com/a/b" "a/b" ⟨some "W", some "L"⟩ (by decide) (by decide)

/-- C7: `clear_events` empties the event log and the dedup ledger and
answers `"cleared"`; right after it `get_events` yields `{count 0, data []}`,
and an event whose id was recorded before the clear is processed as new by
the poll loop (it yields a classified event again). -/
theorem clear_resets_ledger_and_log (s : AppState) (now : String)
    (fs : List (String × Json)) (idv : Json) (r : ClassifiedEvent)
    (_hprev : idv ∈ s.seen_event_ids)
    (hid : jlookup fs "id" = some idv)
    (hok : process_event_payload fs now = .ok r) :
    (clear_events s).2 = "cleared" ∧
    (clear_events s).1.events = [] ∧
    (clear_events s).1.seen_event_ids = [] ∧
    get_events (clear_events s).1 = (0, []) ∧
    processLoop now (clear_events s).1.seen_event_ids [.obj fs] = ([idv], some [r]) := by
  refine ⟨rfl, rfl, rfl, by simp [get_events, clear_events], ?_⟩
  simp [clear_events, processLoop, pyIndexStr, hid, classifyEvent, hok]

/-- Witness for `clear_resets_ledger_and_log` at a concrete state and event. -/
theorem clear_resets_ledger_and_log_witness :
    (clear_events ⟨[], [], [Json.str "1"]⟩).2 = "cleared" ∧
    (clear_events ⟨[], [], [Json.str "1"]⟩).1.events = [] ∧
    (clear_events ⟨[], [], [Json.str "1"]⟩).1.seen_event_ids = [] ∧
    get_events (clear_events ⟨[], [], [Json.str "1"]⟩).1 = (0, []) ∧
    processLoop "T" (clear_events ⟨[], [], [Json.str "1"]⟩).1.seen_event_ids
        [.obj [("id", .str "1"), ("type", .str "WatchEvent")]] =
      ([Json.str "1"],
       some [{repo := .null, id := .str "1", type := .str "WatchEvent", user := .null,
              details := [("action", .null)], created_at := .null, recorded_at := "T"}]) :=
  clear_resets_ledger_and_log ⟨[], [], [Json.str "1"]⟩ "T"
    [("id", .str "1"), ("type", .str "WatchEvent")] (.str "1")
    {repo := .null, id := .str "1", type := .str "WatchEvent", user := .null,
     details := [("action", .null)], created_at := .null, recorded_at := "T"}
    (by decide) (by decide) rfl

/-- Retrieval of `poll_state[repo]` (the entry of the first matching key). -/
def findEntry : List (String × WatchEntry) → String → Option WatchEntry
  | [], _ => none
  | (k1, e1) :: rest, k => if k1 = k then some e1 else findEntry rest k

theorem findEntry_updateEntry_self (ps : List (String × WatchEntry)) (k : String)
    (f : WatchEntry → WatchEntry) (e : WatchEntry) (h : findEntry ps k = some e) :
    findEntry (updateEntry ps k f) k = some (f e) := by
  induction ps with
  | nil => simp [findEntry] at h
  | cons kv rest ih =>
      obtain ⟨k1, e1⟩ := kv
      rw [findEntry] at h
      rw [updateEntry, List.map_cons]
      by_cases hk : k1 = k
      · rw [if_pos hk] at h ⊢
        rw [findEntry, if_pos hk]
        cases h
        rfl
      · rw [if_neg hk] at h ⊢
        rw [findEntry, if_neg hk]
        exact ih h

theorem findEntry_updateEntry_other (ps : List (String × WatchEntry)) (k k2 : String)
    (f : WatchEntry → WatchEntry) (hne : k2 ≠ k) :
    findEntry (updateEntry ps k f) k2 = findEntry ps k2 := by
  induction ps with
  | nil => simp [findEntry, updateEntry]
  | cons kv rest ih =>
      obtain ⟨k1, e1⟩ := kv
      rw [updateEntry, List.map_cons]
      by_cases hk : k1 = k
      · rw [if_pos hk]
        rw [findEntry, findEntry]
        have hne2 : ¬k1 = k2 := fun h => hne (h ▸ hk ▸ rfl)
        rw [if_neg hne2, if_neg hne2]
        exact ih
      · rw [if_neg hk]
        rw [findEntry, findEntry]
        by_cases h2 : k1 = k2
        · rw [if_pos h2, if_pos h2]
        · rw [if_neg h2, if_neg h2]
          exact ih

/-- C9: on an upstream 304 the poll returns no events and the only state
change is the entry's `last_check` timestamp: the event log, the dedup
ledger, the entry's stored etag, and every other registry entry are
unchanged, and the manager's merge step applied to the empty result leaves
the event log as it was. -/
theorem poll_304_frame (s : AppState) (repo : String) (e : WatchEntry) (now : String)
    (he : findEntry s.poll_state repo = some e) :
    (poll_repo_events s repo .notModified304 now).2 = [] ∧
    (poll_repo_events s repo .notModified304 now).1.events = s.events ∧
    (poll_repo_events s repo .notModified304 now).1.seen_event_ids = s.seen_event_ids ∧
    findEntry (poll_repo_events s repo .notModified304 now).1.poll_state repo =
      some {e with last_check := some now} ∧
    (findEntry (poll_repo_events s repo .notModified304 now).1.poll_state repo).map
      WatchEntry.etag = some e.etag ∧
    (∀ k2, k2 ≠ repo →
      findEntry (poll_repo_events s repo .notModified304 now).1.poll_state k2 =
        findEntry s.poll_state k2) ∧
    mergeStep s.events [(poll_repo_events s repo .notModified304 now).2] = s.events := by
  have h1 : findEntry (updateEntry s.poll_state repo
      (fun en => {en with last_check := some now})) repo =
      some {e with last_check := some now} :=
    findEntry_updateEntry_self s.poll_state repo _ e he
  refine ⟨rfl, rfl, rfl, h1, ?_, ?_, ?_⟩
  · show (findEntry (updateEntry s.poll_state repo
        (fun en => {en with last_check := some now})) repo).map WatchEntry.etag = some e.etag
    rw [h1]
    rfl
  · intro k2 hk2
    show findEntry (updateEntry s.poll_state repo
        (fun en => {en with last_check := some now})) k2 = findEntry s.poll_state k2
    exact findEntry_updateEntry_other s.poll_state repo k2 _ hk2
  · show mergeStep s.events [[]] = s.events
    simp [mergeStep]

/-- Witness for `poll_304_frame` at a concrete state. -/
theorem poll_304_frame_witness :
    (poll_repo_events ⟨[("a/b", ⟨some "W", none⟩)], [], []⟩ "a/b" .notModified304 "T").2 = [] ∧
    (poll_repo_events ⟨[("a/b", ⟨some "W", none⟩)], [], []⟩ "a/b" .notModified304 "T").1.events = [] ∧
    (poll_repo_events ⟨[("a/b", ⟨some "W", none⟩)], [], []⟩ "a/b" .notModified304 "T").1.seen_event_ids = [] ∧
    findEntry (poll_repo_events ⟨[("a/b", ⟨some "W", none⟩)], [], []⟩ "a/b" .notModified304 "T").1.poll_state "a/b" =
      some ⟨some "W", some "T"⟩ ∧
    (findEntry (poll_repo_events ⟨[("a/b", ⟨some "W", none⟩)], [], []⟩ "a/b" .notModified304 "T").1.poll_state "a/b").map
      WatchEntry.etag = some (some "W") ∧
    (∀ k2, k2 ≠ "a/b" →
      findEntry (poll_repo_events ⟨[("a/b", ⟨some "W", none⟩)], [], []⟩ "a/b" .notModified304 "T").1.poll_state k2 =
        findEntry [("a/b", ⟨some "W", none⟩)] k2) ∧
    mergeStep [] [(poll_repo_events ⟨[("a/b", ⟨some "W", none⟩)], [], []⟩ "a/b" .notModified304 "T").2] = [] :=
  poll_304_frame ⟨[("a/b", ⟨some "W", none⟩)], [], []⟩ "a/b" ⟨some "W", none⟩ "T" (by decide)

/-- C6 counterexample: with no token configured the poller manager does not
start (so polling does not proceed), and the headers the poller would build
always carry an `Authorization` entry — here the literal `"token None"` —
rather than omitting the credential. -/
theorem token_optional_counterexample :
    pollerManagerStarts none = false ∧
    ("Authorization", "token None") ∈ buildHeaders none none := by
  constructor
  · rfl
  · simp [buildHeaders, tokenText]

/-- C6 amended: the bearer credential is effectively required — the polling
loop starts exactly when `GITHUB_TOKEN` is set and non-empty — and whenever
a request is built its headers carry the `Authorization: token <value>`
entry. -/
theorem token_required_for_polling (tok etag : Option String) :
    (pollerManagerStarts tok = true ↔ tok ≠ none ∧ tok ≠ some "") ∧
    ("Authorization", "token " ++ tokenText tok) ∈ buildHeaders tok etag := by
  constructor
  · cases tok <;> simp [pollerManagerStarts, tokenConfigured]
  · cases etag with
    | none => simp [buildHeaders]
    | some e =>
        by_cases he : e = "" <;> simp [buildHeaders, he]

/-- C10: a 200 poll whose batch contains a record without an `"id"` key
resolves to `[]` through the generic exception handler, yet the id of the
event processed earlier in the (reversed) iteration is already in the dedup
ledger, and a re-delivery of that event in the next poll returns nothing:
the event is permanently suppressed although no poll ever returned it. -/
theorem midbatch_failure_mutates_ledger :
    (poll_repo_events ⟨[("o/r", ⟨none, none⟩)], [], []⟩ "o/r"
        (.ok200 (some "E") [Json.obj [], Json.obj [("id", Json.str "A")]]) "T").2 = [] ∧
    (poll_repo_events ⟨[("o/r", ⟨none, none⟩)], [], []⟩ "o/r"
        (.ok200 (some "E") [Json.obj [], Json.obj [("id", Json.str "A")]]) "T").1.seen_event_ids
      = [Json.str "A"] ∧
    (poll_repo_events
        (poll_repo_events ⟨[("o/r", ⟨none, none⟩)], [], []⟩ "o/r"
          (.ok200 (some "E") [Json.obj [], Json.obj [("id", Json.str "A")]]) "T").1
        "o/r" (.ok200 (some "E") [Json.obj [("id", Json.str "A")]]) "T2").2 = [] := by
  decide

theorem mergeCount_ge (results : List (List ClassifiedEvent)) (n : Nat) :
    n ≤ results.foldl (fun m r => if r.isEmpty then m else m + r.length) n := by
  induction results generalizing n with
  | nil => exact le_refl n
  | cons r rs ih =>
      rw [List.foldl_cons]
      by_cases hr : r.isEmpty
      · rw [if_pos hr]
        exact ih n
      · rw [if_neg hr]
        exact le_trans (Nat.le_add_right n r.length) (ih (n + r.length))

theorem mergeExtend_of_count_zero (results : List (List ClassifiedEvent))
    (acc : List ClassifiedEvent)
    (h : results.foldl (fun m r => if r.isEmpty then m else m + r.length) 0 = 0) :
    results.foldl (fun a r => if r.isEmpty then a else a ++ r) acc = acc := by
  induction results generalizing acc with
  | nil => rfl
  | cons r rs ih =>
      by_cases hr : r.isEmpty
      · rw [List.foldl_cons, if_pos hr]
        rw [List.foldl_cons, if_pos hr] at h
        exact ih acc h
      · exfalso
        rw [List.foldl_cons, if_neg hr] at h
        have h1 := mergeCount_ge rs (0 + r.length)
        rw [h] at h1
        have h2 : r.length ≠ 0 := fun hz => hr (List.isEmpty_iff_length_eq_zero.mpr hz)
        omega

/-- C2: one merge step of the poller manager preserves the event-log
invariant: starting from a log that is sorted newest-first and holds at most
200 entries, after extending with any batch of poll results, re-sorting and
truncating, the log is again sorted newest-first (descending `recorded_at`)
and holds at most 200 entries. -/
theorem merge_sorted_bounded (events : List ClassifiedEvent)
    (results : List (List ClassifiedEvent))
    (hs : List.Sorted recentFirst events) (hl : events.length ≤ 200) :
    List.Sorted recentFirst (mergeStep events results) ∧
    (mergeStep events results).length ≤ 200 := by
  by_cases hc : 0 < results.foldl (fun m r => if r.isEmpty then m else m + r.length) 0
  · have heq : mergeStep events results =
        (List.insertionSort recentFirst
          (results.foldl (fun a r => if r.isEmpty then a else a ++ r) events)).take 200 := by
      simp only [mergeStep]
      rw [if_pos hc]
    rw [heq]
    constructor
    · exact List.Pairwise.sublist (List.take_sublist 200 _)
        (List.sorted_insertionSort recentFirst _)
    · rw [List.length_take]
      exact min_le_left _ _
  · have h0 : results.foldl (fun m r => if r.isEmpty then m else m + r.length) 0 = 0 := by
      omega
    have heq : mergeStep events results = events := by
      simp only [mergeStep]
      rw [if_neg hc, mergeExtend_of_count_zero results events h0]
    rw [heq]
    exact ⟨hs, hl⟩

/-- Witness for `merge_sorted_bounded` at a concrete log and batch. -/
theorem merge_sorted_bounded_witness :
    List.Sorted recentFirst
      (mergeStep [⟨.null, .null, .null, .null, [], .null, "b"⟩]
        [[⟨.null, .null, .null, .null, [], .null, "a"⟩],
         [⟨.null, .null, .null, .null, [], .null, "c"⟩]]) ∧
    (mergeStep [⟨.null, .null, .null, .null, [], .null, "b"⟩]
      [[⟨.null, .null, .null, .null, [], .null, "a"⟩],
       [⟨.null, .null, .null, .null, [], .null, "c"⟩]]).length ≤ 200 :=
  merge_sorted_bounded [⟨.null, .null, .null, .null, [], .null, "b"⟩]
    [[⟨.null, .null, .null, .null, [], .null, "a"⟩],
     [⟨.null, .null, .null, .null, [], .null, "c"⟩]]
    (by decide) (by decide)

/-- Number of classified events in `l` whose `sourceEventId` (the `id`
field) equals `v`. -/
def countId (l : List ClassifiedEvent) (v : Json) : Nat :=
  (l.filter (fun r => decide (r.id = v))).length

theorem countId_nil (v : Json) : countId [] v = 0 := rfl

theorem countId_cons (r : ClassifiedEvent) (l : List ClassifiedEvent) (v : Json) :
    countId (r :: l) v = (if r.id = v then 1 else 0) + countId l v := by
  by_cases h : r.id = v
  · simp [countId, List.filter_cons, h, Nat.add_comm]
  · simp [countId, List.filter_cons, h]

/-- The classified record returned for an event carries the event's own
`"id"` value. -/
theorem classify_keeps_id (e : Json) (idv : Json) (now : String) (r : ClassifiedEvent)
    (h1 : pyIndexStr e "id" = .ok idv) (h2 : classifyEvent e now = .ok r) :
    r.id = idv := by
  cases e with
  | obj fs =>
      rw [pyIndexStr] at h1
      cases hx : jlookup fs "id" with
      | none =>
          rw [hx] at h1
          exact absurd h1 (by simp)
      | some v =>
          rw [hx] at h1
          have hv : v = idv := by
            injection h1
          subst hv
          rw [classifyEvent, process_event_payload] at h2
          split at h2
          · exact absurd h2 (by simp)
          · split at h2
            · exact absurd h2 (by simp)
            · split at h2
              · exact absurd h2 (by simp)
              · injection h2 with h3
                rw [← h3]
                simp [jget, hx]
  | null => exact absurd h1 (by simp [pyIndexStr])
  | bool b => exact absurd h1 (by simp [pyIndexStr])
  | num n => exact absurd h1 (by simp [pyIndexStr])
  | str s => exact absurd h1 (by simp [pyIndexStr])
  | arr l => exact absurd h1 (by simp [pyIndexStr])

/-- Invariants of one pass of the dedup loop: the seen-set only grows, any
id occurs at most once in the returned batch, an id already in the ledger is
never returned, and a returned id is afterwards in the ledger. -/
theorem processLoop_spec (now : String) (b : List Json) : ∀ (seen : List Json) (v : Json),
    seen ⊆ (processLoop now seen b).1 ∧
    countId (pollOutput (processLoop now seen b)) v ≤ 1 ∧
    (v ∈ seen → countId (pollOutput (processLoop now seen b)) v = 0) ∧
    (1 ≤ countId (pollOutput (processLoop now seen b)) v →
      v ∈ (processLoop now seen b).1) := by
  induction b with
  | nil =>
      intro seen v
      refine ⟨fun x hx => hx, ?_, ?_, ?_⟩ <;> simp [processLoop, pollOutput, countId]
  | cons e rest ih =>
      intro seen v
      cases hid : pyIndexStr e "id" with
      | error u =>
          simp only [processLoop, hid]
          refine ⟨fun x hx => hx, ?_, ?_, ?_⟩ <;> simp [pollOutput, countId]
      | ok idv =>
          simp only [processLoop, hid]
          by_cases hmem : idv ∈ seen
          · rw [if_pos hmem]
            exact ih seen v
          · rw [if_neg hmem]
            cases hcl : classifyEvent e now with
            | error u =>
                simp only [hcl]
                refine ⟨List.subset_cons_of_subset idv (fun x hx => hx), ?_, ?_, ?_⟩ <;>
                  simp [pollOutput, countId]
            | ok r =>
                simp only [hcl]
                have hr : r.id = idv := classify_keeps_id e idv now r hid hcl
                obtain ⟨ih1, ih2, ih3, ih4⟩ := ih (idv :: seen) v
                rcases hp : processLoop now (idv :: seen) rest with ⟨s2, o2⟩
                rw [hp] at ih1 ih2 ih3 ih4
                refine ⟨fun x hx => ih1 (List.mem_cons_of_mem idv hx), ?_, ?_, ?_⟩
                · cases o2 with
                  | none => simp [pollOutput, countId]
                  | some l =>
                      simp only [pollOutput, Option.map] at ih2 ih3 ⊢
                      rw [countId_cons, hr]
                      by_cases hv : idv = v
                      · rw [if_pos hv]
                        have h0 : countId l v = 0 := ih3 (hv ▸ List.mem_cons_self idv seen)
                        omega
                      · rw [if_neg hv]
                        omega
                · intro hvs
                  cases o2 with
                  | none => simp [pollOutput, countId]
                  | some l =>
                      simp only [pollOutput, Option.map] at ih3 ⊢
                      rw [countId_cons, hr]
                      have hv : ¬idv = v := fun h => hmem (h ▸ hvs)
                      rw [if_neg hv, ih3 (List.mem_cons_of_mem idv hvs)]
                · intro hcount
                  cases o2 with
                  | none =>
                      simp [pollOutput, countId] at hcount
                  | some l =>
                      simp only [pollOutput, Option.map] at hcount ih4 ⊢
                      by_cases hv : idv = v
                      · exact ih1 (hv ▸ List.mem_cons_self idv seen)
                      · rw [countId_cons, hr, if_neg hv] at hcount
                        exact ih4 (by omega)

/-- All classified events returned across a sequence of poll cycles. -/
def totalOut (p : List Json × List (List ClassifiedEvent)) : List ClassifiedEvent :=
  p.2.flatten

theorem countId_append (a b : List ClassifiedEvent) (v : Json) :
    countId (a ++ b) v = countId a v + countId b v := by
  simp [countId, List.filter_append]

theorem runBatches_count (now : String) (bs : List (List Json)) :
    ∀ (seen : List Json) (v : Json),
      countId (totalOut (runBatches now seen bs)) v ≤ 1 ∧
      (v ∈ seen → countId (totalOut (runBatches now seen bs)) v = 0) := by
  induction bs with
  | nil =>
      intro seen v
      constructor <;> simp [runBatches, totalOut, countId]
  | cons b rest ih =>
      intro seen v
      obtain ⟨pl1, pl2, pl3, pl4⟩ := processLoop_spec now b.reverse seen v
      rcases hp : processLoop now seen b.reverse with ⟨s1, o1⟩
      rw [hp] at pl1 pl2 pl3 pl4
      obtain ⟨ihA, ihB⟩ := ih s1 v
      simp only [runBatches, hp, totalOut, List.flatten_cons, countId_append] at *
      constructor
      · by_cases h1 : 1 ≤ countId (pollOutput (s1, o1)) v
        · have hv1 : v ∈ s1 := pl4 h1
          have h0 := ihB hv1
          omega
        · omega
      · intro hvs
        have hA := pl3 hvs
        have hB := ihB (pl1 hvs)
        omega

/-- C1: with the ledger starting empty (as after a clear), every raw event
id occurs in at most one classified event returned across an arbitrary
sequence of poll cycles; and whenever an id is already recorded in the
ledger, no later delivery of it in any subsequent cycle produces a
classified event. -/
theorem dedup_unique_ids (now : String) (batches : List (List Json)) (v : Json) :
    countId (totalOut (runBatches now [] batches)) v ≤ 1 ∧
    (∀ seen, v ∈ seen → countId (totalOut (runBatches now seen batches)) v = 0) :=
  ⟨(runBatches_count now batches [] v).1,
   fun seen h => (runBatches_count now batches seen v).2 h⟩

/-- Witness for `dedup_unique_ids`: the same id delivered in two consecutive
cycles, and an id already recorded. -/
theorem dedup_unique_ids_witness :
    countId (totalOut (runBatches "T" []
      [[Json.obj [("id", .str "1")]], [Json.obj [("id", .str "1")]]])) (.str "1") ≤ 1 ∧
    countId (totalOut (runBatches "T" [Json.str "1"]
      [[Json.obj [("id", .str "1")]]])) (.str "1") = 0 :=
  ⟨(dedup_unique_ids "T" [[Json.obj [("id", .str "1")]], [Json.obj [("id", .str "1")]]]
      (.str "1")).1,
   (dedup_unique_ids "T" [[Json.obj [("id", .str "1")]]] (.str "1")).2
     [Json.str "1"] (by decide)⟩

/-- Line 46: `branch_or_tag = ref_full.split('/')[-1] if ref_full else
"unknown"` for a string ref. -/
def branch_or_tag_of (ref_full : String) : String :=
  if ref_full = "" then "unknown"
  else ((splitOnChar '/' ref_full.toList).map List.asString).getLastD ""

/-- `True` when an optional JSON value is absent or a string. -/
def strOrAbsent : Option Json → Bool
  | none => true
  | some (.str _) => true
  | _ => false

/-- A commit record the classifier can read a message from: a dict whose
`"message"` field, when present, is a string. -/
def commitShaped : Json → Bool
  | .obj cf => strOrAbsent (jlookup cf "message")
  | _ => false

/-- `c.get("message", "No message").split('\n')[0]` for a well-shaped commit
record. -/
def commitMsgFirstLine (c : Json) : String :=
  match c with
  | .obj cf =>
      match jlookup cf "message" with
      | some (.str s) => ((splitOnChar '\n' s.toList).map List.asString).headD ""
      | none => ((splitOnChar '\n' ("No message" : String).toList).map List.asString).headD ""
      | some _ => ""
  | _ => ""

theorem commitMessages_eq (cs : List Json) (h : ∀ c ∈ cs, commitShaped c = true) :
    commitMessages cs = .ok (cs.map commitMsgFirstLine) := by
  induction cs with
  | nil => rfl
  | cons c rest ih =>
      have hc := h c (List.mem_cons_self c rest)
      have hrest := ih (fun x hx => h x (List.mem_cons_of_mem c hx))
      cases c with
      | obj cf =>
          rw [commitMessages]
          cases hm : jlookup cf "message" with
          | none =>
              have h1 : pyGetD (.obj cf) "message" (.str "No message") =
                  .ok (.str "No message") := by
                simp [pyGetD, jgetD, hm]
              simp only [h1, pyFirstLine, hrest, List.map_cons]
              simp [commitMsgFirstLine, hm]
          | some m =>
              rw [commitShaped, hm] at hc
              cases m with
              | str s =>
                  have h1 : pyGetD (.obj cf) "message" (.str "No message") =
                      .ok (.str s) := by
                    simp [pyGetD, jgetD, hm]
                  simp only [h1, pyFirstLine, hrest, List.map_cons]
                  simp [commitMsgFirstLine, hm]
              | null => exact absurd hc (by simp [strOrAbsent])
              | bool b => exact absurd hc (by simp [strOrAbsent])
              | num n => exact absurd hc (by simp [strOrAbsent])
              | arr l => exact absurd hc (by simp [strOrAbsent])
              | obj g => exact absurd hc (by simp [strOrAbsent])
      | null => exact absurd hc (by simp [commitShaped])
      | bool b => exact absurd hc (by simp [commitShaped])
      | num n => exact absurd hc (by simp [commitShaped])
      | str s => exact absurd hc (by simp [commitShaped])
      | arr l => exact absurd hc (by simp [commitShaped])

/-- C3 counterexample: a push event with one commit and an empty (falsy)
`ref` is classified as `Pushed Commits` with branch name `"unknown"`,
whereas the final path segment of the empty ref is `""` — so the branch
name is not always the final path segment of the ref. -/
theorem push_branch_name_counterexample :
    pushDetails (.obj [("ref", .str ""), ("commits", .arr [Json.obj []])]) =
      .ok [("action", .str "Pushed Commits"), ("branch", .str "unknown"),
           ("commit_count", .num 1), ("messages", .arr [.str "No message"])] ∧
    ((splitOnChar '/' ("" : String).toList).map List.asString).getLastD "" ≠ "unknown" := by
  constructor
  · rfl
  · decide

/-- C3 amended: for a push event whose `ref` is a string and whose commits
are readable records, the classifier distinguishes exactly three cases —
a ref containing `refs/tags/` yields `Pushed Tag` with the tag name and
commit count; otherwise at least one commit yields `Pushed Commits` with
branch, count and the first line of each commit message; otherwise (no
commits) it yields `Pushed (No Commits)` with the raw ref and a note — and
the branch/tag name is the final path segment of the ref whenever the ref
is non-empty (an empty or absent ref yields the placeholder `"unknown"`). -/
theorem push_classifier_cases (ref : String) (commits : List Json)
    (hc : ∀ c ∈ commits, commitShaped c = true) :
    (hasSubseq "refs/tags/".toList ref.toList = true →
      pushDetails (.obj [("ref", .str ref), ("commits", .arr commits)]) =
        .ok [("action", .str "Pushed Tag"), ("tag", .str (branch_or_tag_of ref)),
             ("commit_count", .num (Int.ofNat commits.length))]) ∧
    (hasSubseq "refs/tags/".toList ref.toList = false → commits ≠ [] →
      pushDetails (.obj [("ref", .str ref), ("commits", .arr commits)]) =
        .ok [("action", .str "Pushed Commits"), ("branch", .str (branch_or_tag_of ref)),
             ("commit_count", .num (Int.ofNat commits.length)),
             ("messages", .arr ((commits.map commitMsgFirstLine).map .str))]) ∧
    (hasSubseq "refs/tags/".toList ref.toList = false → commits = [] →
      pushDetails (.obj [("ref", .str ref), ("commits", .arr commits)]) =
        .ok [("action", .str "Pushed (No Commits)"), ("ref", .str ref),
             ("note", .str "This is often a force-push, branch deletion, or other ref update.")]) ∧
    (ref ≠ "" → branch_or_tag_of ref =
      ((splitOnChar '/' ref.toList).map List.asString).getLastD "") := by
  have h0 : pushDetails (.obj [("ref", .str ref), ("commits", .arr commits)]) =
      (match (if pyTruthy (.str ref) = true then pySplitSlashLast (.str ref)
              else Except.ok "unknown") with
       | .error e => .error e
       | .ok branch_or_tag =>
           match pyContains "refs/tags/" (.str ref) with
           | .error e => .error e
           | .ok isTag =>
               if isTag then
                 match pyLen (.arr commits) with
                 | .error e => .error e
                 | .ok n =>
                     .ok [("action", .str "Pushed Tag"), ("tag", .str branch_or_tag),
                          ("commit_count", .num (Int.ofNat n))]
               else
                 match pyLen (.arr commits) with
                 | .error e => .error e
                 | .ok n =>
                     if n > 0 then
                       match pyIter (.arr commits) with
                       | .error e => .error e
                       | .ok items =>
                           match commitMessages items with
                           | .error e => .error e
                           | .ok msgs =>
                               .ok [("action", .str "Pushed Commits"),
                                    ("branch", .str branch_or_tag),
                                    ("commit_count", .num (Int.ofNat n)),
                                    ("messages", .arr (msgs.map .str))]
                     else
                       .ok [("action", .str "Pushed (No Commits)"),
                            ("ref", .str ref),
                            ("note", .str "This is often a force-push, branch deletion, or other ref update.")]) := rfl
  have hbt : (if pyTruthy (.str ref) = true then pySplitSlashLast (.str ref)
      else Except.ok "unknown") = Except.ok (branch_or_tag_of ref) := by
    by_cases href : ref = ""
    · subst href
      simp [pyTruthy, branch_or_tag_of]
    · have ht : pyTruthy (.str ref) = true := by
        simp [pyTruthy, href]
      rw [if_pos ht, pySplitSlashLast, branch_or_tag_of, if_neg href]
  rw [h0, hbt]
  have hcont : pyContains "refs/tags/" (.str ref) =
      .ok (hasSubseq "refs/tags/".toList ref.toList) := rfl
  rw [hcont]
  refine ⟨?_, ?_, ?_, ?_⟩
  · intro htag
    rw [htag]
    rfl
  · intro htag hne
    rw [htag]
    have hlen : 0 < commits.length := List.length_pos.mpr hne
    simp only [if_neg (by simp : ¬(false = true)), pyLen, if_pos hlen, pyIter,
      commitMessages_eq commits hc]
  · intro htag hemp
    subst hemp
    rw [htag]
    rfl
  · intro href
    rw [branch_or_tag_of, if_neg href]

/-- Witness for `push_classifier_cases` on a tag push and a commit push. -/
theorem push_classifier_cases_witness :
    pushDetails (.obj [("ref", .str "refs/tags/v1"),
        ("commits", .arr [Json.obj [], Json.obj []])]) =
      .ok [("action", .str "Pushed Tag"), ("tag", .str "v1"),
           ("commit_count", .num 2)] ∧
    pushDetails (.obj [("ref", .str "refs/heads/dev"),
        ("commits", .arr [Json.obj [("message", .str "m1\nm2")]])]) =
      .ok [("action", .str "Pushed Commits"), ("branch", .str "dev"),
           ("commit_count", .num 1), ("messages", .arr [.str "m1"])] :=
  ⟨(push_classifier_cases "refs/tags/v1" [Json.obj [], Json.obj []]
      (by decide)).1 (by decide),
   (push_classifier_cases "refs/heads/dev" [Json.obj [("message", .str "m1\nm2")]]
      (by decide)).2.1 (by decide) (by decide)⟩

/-- C5 counterexample: `process_event_payload` does fail on a malformed
nested field — an event whose `payload` is the number `5` makes
`payload.get("action")` raise (modelled as `.error ()`), so the classifier
is not total on all raw records. -/
theorem classifier_raises_counterexample :
    process_event_payload [("type", .str "WatchEvent"), ("payload", .num 5)] "T" =
      .error () := rfl


def objOrAbsent : Option Json → Bool
  | none => true
  | some (.obj _) => true
  | _ => false

def arrOfCommitsOrAbsent : Option Json → Bool
  | none => true
  | some (.arr cs) => cs.all commitShaped
  | _ => false

def payloadFields (fs : List (String × Json)) : List (String × Json) :=
  match jgetD fs "payload" (.obj []) with
  | .obj pf => pf
  | _ => []

def WellShaped (fs : List (String × Json)) : Prop :=
  objOrAbsent (jlookup fs "payload") = true ∧
  objOrAbsent (jlookup fs "repo") = true ∧
  objOrAbsent (jlookup fs "actor") = true ∧
  (jget fs "type" = .str "PushEvent" →
    strOrAbsent (jlookup (payloadFields fs) "ref") = true ∧
    arrOfCommitsOrAbsent (jlookup (payloadFields fs) "commits") = true) ∧
  (jget fs "type" = .str "IssuesEvent" →
    objOrAbsent (jlookup (payloadFields fs) "issue") = true) ∧
  (jget fs "type" = .str "PullRequestEvent" →
    objOrAbsent (jlookup (payloadFields fs) "pull_request") = true) ∧
  (jget fs "type" = .str "ForkEvent" →
    objOrAbsent (jlookup (payloadFields fs) "forkee") = true)

instance (fs : List (String × Json)) : Decidable (WellShaped fs) := by
  unfold WellShaped
  infer_instance

theorem objOrAbsent_getD (o : Option Json) (h : objOrAbsent o = true) :
    ∃ g, o.getD (.obj []) = .obj g := by
  cases o with
  | none => exact ⟨[], rfl⟩
  | some m =>
      cases m with
      | obj g => exact ⟨g, rfl⟩
      | null => simp [objOrAbsent] at h
      | bool b => simp [objOrAbsent] at h
      | num n => simp [objOrAbsent] at h
      | str s => simp [objOrAbsent] at h
      | arr l => simp [objOrAbsent] at h

theorem strOrAbsent_getD (o : Option Json) (h : strOrAbsent o = true) :
    ∃ s, o.getD (.str "") = .str s := by
  cases o with
  | none => exact ⟨"", rfl⟩
  | some m =>
      cases m with
      | str s => exact ⟨s, rfl⟩
      | null => simp [strOrAbsent] at h
      | bool b => simp [strOrAbsent] at h
      | num n => simp [strOrAbsent] at h
      | arr l => simp [strOrAbsent] at h
      | obj g => simp [strOrAbsent] at h

theorem commitsArr_getD (o : Option Json) (h : arrOfCommitsOrAbsent o = true) :
    ∃ cs, o.getD (.arr []) = .arr cs ∧ ∀ c ∈ cs, commitShaped c = true := by
  cases o with
  | none => exact ⟨[], rfl, by simp⟩
  | some m =>
      cases m with
      | arr cs =>
          refine ⟨cs, rfl, ?_⟩
          simpa [arrOfCommitsOrAbsent, List.all_eq_true] using h
      | null => simp [arrOfCommitsOrAbsent] at h
      | bool b => simp [arrOfCommitsOrAbsent] at h
      | num n => simp [arrOfCommitsOrAbsent] at h
      | str s => simp [arrOfCommitsOrAbsent] at h
      | obj g => simp [arrOfCommitsOrAbsent] at h

theorem branch_step (r : String) :
    (if pyTruthy (.str r) = true then pySplitSlashLast (.str r)
      else Except.ok "unknown") = Except.ok (branch_or_tag_of r) := by
  by_cases href : r = ""
  · subst href
    simp [pyTruthy, branch_or_tag_of]
  · have ht : pyTruthy (.str r) = true := by
      simp [pyTruthy, href]
    rw [if_pos ht, pySplitSlashLast, branch_or_tag_of, if_neg href]

theorem pushDetails_isOk (pf : List (String × Json))
    (href : strOrAbsent (jlookup pf "ref") = true)
    (hcs : arrOfCommitsOrAbsent (jlookup pf "commits") = true) :
    (pushDetails (.obj pf)).isOk = true := by
  obtain ⟨cs, hc1, hall⟩ := commitsArr_getD _ hcs
  obtain ⟨r, hr1⟩ := strOrAbsent_getD _ href
  have hc2 : jgetD pf "commits" (.arr []) = .arr cs := hc1
  have hr2 : jgetD pf "ref" (.str "") = .str r := hr1
  rw [pushDetails]
  simp only [pyGetD, hc2, hr2, branch_step r]
  rw [show pyContains "refs/tags/" (.str r) =
    .ok (hasSubseq "refs/tags/".toList r.toList) from rfl]
  cases htag : hasSubseq "refs/tags/".toList r.toList with
  | true => simp [pyLen, Except.isOk, Except.toBool]
  | false =>
      by_cases hn : cs.length > 0
      · simp [pyLen, hn, pyIter, commitMessages_eq cs hall, Except.isOk, Except.toBool]
      · simp [pyLen, hn, Except.isOk, Except.toBool]

theorem detailsFor_isOk (e_type : Json) (pf : List (String × Json))
    (hpush : e_type = .str "PushEvent" →
      strOrAbsent (jlookup pf "ref") = true ∧
      arrOfCommitsOrAbsent (jlookup pf "commits") = true)
    (hiss : e_type = .str "IssuesEvent" → objOrAbsent (jlookup pf "issue") = true)
    (hpr : e_type = .str "PullRequestEvent" →
      objOrAbsent (jlookup pf "pull_request") = true)
    (hfork : e_type = .str "ForkEvent" → objOrAbsent (jlookup pf "forkee") = true) :
    (detailsFor e_type (.obj pf)).isOk = true := by
  rw [detailsFor]
  by_cases h1 : e_type = .str "PushEvent"
  · rw [if_pos h1]
    exact pushDetails_isOk pf (hpush h1).1 (hpush h1).2
  · rw [if_neg h1]
    by_cases h2 : e_type = .str "IssuesEvent"
    · rw [if_pos h2]
      obtain ⟨g, hg⟩ := objOrAbsent_getD _ (hiss h2)
      have hg2 : jgetD pf "issue" (.obj []) = .obj g := hg
      simp [pyGetD, pyGet, hg2, Except.isOk, Except.toBool]
    · rw [if_neg h2]
      by_cases h3 : e_type = .str "PullRequestEvent"
      · rw [if_pos h3]
        obtain ⟨g, hg⟩ := objOrAbsent_getD _ (hpr h3)
        have hg2 : jgetD pf "pull_request" (.obj []) = .obj g := hg
        simp [pyGetD, pyGet, hg2, Except.isOk, Except.toBool]
      · rw [if_neg h3]
        by_cases h4 : e_type = .str "WatchEvent"
        · rw [if_pos h4]
          simp [pyGet, pyGetD, Except.isOk, Except.toBool]
        · rw [if_neg h4]
          by_cases h5 : e_type = .str "ForkEvent"
          · rw [if_pos h5]
            obtain ⟨g, hg⟩ := objOrAbsent_getD _ (hfork h5)
            have hg2 : jgetD pf "forkee" (.obj []) = .obj g := hg
            simp [pyGetD, pyGet, hg2, Except.isOk, Except.toBool]
          · rw [if_neg h5]
            by_cases h6 : e_type = .str "CreateEvent"
            · rw [if_pos h6]
              simp [pyGet, pyGetD, Except.isOk, Except.toBool]
            · rw [if_neg h6]
              by_cases h7 : e_type = .str "DeleteEvent"
              · rw [if_pos h7]
                simp [pyGet, pyGetD, Except.isOk, Except.toBool]
              · rw [if_neg h7]
                simp only [pyGet, pyGetD]
                by_cases ht : pyTruthy (jgetD pf "action" Json.null) = true
                · simp [ht, Except.isOk, Except.toBool]
                · simp [ht, pyKeys, Except.isOk, Except.toBool]

theorem classifier_total_when_shaped (fs : List (String × Json)) (now : String)
    (h : WellShaped fs) : (process_event_payload fs now).isOk = true := by
  obtain ⟨hp, hr, ha, hpush, hiss, hpr, hfork⟩ := h
  obtain ⟨g, hg⟩ := objOrAbsent_getD _ hp
  have hg2 : jgetD fs "payload" (.obj []) = .obj g := hg
  have hplf : payloadFields fs = g := by
    rw [payloadFields, hg2]
  rw [process_event_payload]
  rw [hg2]
  rw [hplf] at hpush hiss hpr hfork
  have hd := detailsFor_isOk (jget fs "type") g hpush hiss hpr hfork
  cases hres : detailsFor (jget fs "type") (.obj g) with
  | error u =>
      rw [hres] at hd
      exact Bool.noConfusion hd
  | ok d =>
      obtain ⟨rg, hrg⟩ := objOrAbsent_getD _ hr
      obtain ⟨ag, hag⟩ := objOrAbsent_getD _ ha
      have hrg2 : jgetD fs "repo" (.obj []) = .obj rg := hrg
      have hag2 : jgetD fs "actor" (.obj []) = .obj ag := hag
      simp [pyGet, pyGetD, hrg2, hag2, Except.isOk, Except.toBool]

/-- C5 amended: the classifier never fails on events whose nested fields
are missing or of the shapes it reads (dict-valued `payload`, `repo`,
`actor`, `issue`, `pull_request`, `forkee`; string `ref`; `commits` a list
of dicts with string messages): for every such record it returns a
classified record, degrading absent fields to defaults.  (A nested field of
the wrong type — e.g. a numeric `payload` — raises instead, see the
counterexample.) -/
theorem classifier_total_on_shaped (fs : List (String × Json)) (now : String)
    (h : WellShaped fs) : (process_event_payload fs now).isOk = true :=
  classifier_total_when_shaped fs now h

/-- Witness for `classifier_total_on_shaped` at a concrete push event. -/
theorem classifier_total_on_shaped_witness :
    (process_event_payload [("type", .str "PushEvent"),
        ("payload", .obj [("ref", .str "refs/heads/m"), ("commits", .arr [])])]
      "T").isOk = true :=
  classifier_total_on_shaped
    [("type", .str "PushEvent"),
     ("payload", .obj [("ref", .str "refs/heads/m"), ("commits", .arr [])])]
    "T" (by decide)

theorem searchLocW_isSome_iff (W : Char → Bool) (l : List Char) :
    (searchLocW W l).isSome = true ↔ ∃ t ∈ l.tails, (matchAtW W t).isSome = true := by
  induction l with
  | nil =>
      simp [searchLocW, List.tails]
  | cons c t ih =>
      rw [searchLocW, List.tails_cons]
      cases hm : matchAtW W (c :: t) with
      | some g => simp [Option.orElse, hm]
      | none =>
          simp only [Option.orElse, hm]
          simp only [List.mem_cons]
          constructor
          · intro h
            obtain ⟨u, hu1, hu2⟩ := ih.mp h
            exact ⟨u, Or.inr hu1, hu2⟩
          · intro ⟨u, hu1, hu2⟩
            cases hu1 with
            | inl he =>
                rw [he, hm] at hu2
                exact absurd hu2 (by simp)
            | inr he => exact ih.mpr ⟨u, he, hu2⟩

theorem matchAtW_shape (W : Char → Bool) (l g : List Char)
    (h : matchAtW W l = some g) :
    ∃ owner rname, owner ≠ [] ∧ rname ≠ [] ∧
      (∀ c ∈ owner, ownerCharW W c = true) ∧ (∀ c ∈ rname, repoCharW W c = true) ∧
      g = owner ++ '/' :: rname := by
  simp only [matchAtW] at h
  split at h
  · split at h
    · exact absurd h (by simp)
    · rename_i hoe
      split at h
      · rename_i c2 rest2 heq
        split at h
        · rename_i hsl
          split at h
          · exact absurd h (by simp)
          · rename_i hne
            refine ⟨(List.takeWhile (ownerCharW W) (List.drop githubLit.length l)),
              rest2.takeWhile (repoCharW W), ?_, ?_, ?_, ?_, ?_⟩
            · intro hx
              rw [hx] at hoe
              exact hoe rfl
            · intro hx
              rw [hx] at hne
              exact hne rfl
            · intro x hx
              exact List.mem_takeWhile_imp hx
            · intro x hx
              exact List.mem_takeWhile_imp hx
            · injection h with h2
              exact h2.symm
        · exact absurd h (by simp)
      · exact absurd h (by simp)
  · exact absurd h (by simp)

theorem searchLocW_shape (W : Char → Bool) (l : List Char) :
    ∀ g, searchLocW W l = some g →
      ∃ owner rname, owner ≠ [] ∧ rname ≠ [] ∧
        (∀ c ∈ owner, ownerCharW W c = true) ∧ (∀ c ∈ rname, repoCharW W c = true) ∧
        g = owner ++ '/' :: rname := by
  induction l with
  | nil =>
      intro g h
      rw [searchLocW] at h
      exact matchAtW_shape W [] g h
  | cons c t ih =>
      intro g h
      rw [searchLocW] at h
      cases hm : matchAtW W (c :: t) with
      | some g2 =>
          rw [hm] at h
          simp only [Option.orElse] at h
          injection h with h2
          exact h2 ▸ matchAtW_shape W (c :: t) g2 hm
      | none =>
          rw [hm] at h
          simp only [Option.orElse] at h
          exact ih g h

theorem rstripSlash_eq_self (l : List Char) (c : Char) (hlast : l.getLast? = some c)
    (hc : ¬c = '/') : rstripSlash l = l := by
  rw [rstripSlash]
  rw [← List.head?_reverse] at hlast
  cases hrev : l.reverse with
  | nil =>
      rw [hrev] at hlast
      exact absurd hlast (by simp)
  | cons c2 t2 =>
      rw [hrev] at hlast
      have hc2 : c2 = c := by
        simpa using hlast
      have hcond : (c2 == '/') = false := by
        simp [hc2, hc]
      rw [List.dropWhile_cons, hcond]
      show (c2 :: t2).reverse = l
      rw [← hrev, List.reverse_reverse]

/-- C4: for every word class `W` that excludes `'/'` — as Python's
Unicode-aware `\w` does — and every input string, `extract_repoW W`
returns a key exactly when the input contains a recognizable GitHub
resource-locator substring (the pattern matches at some position); any
returned key is a canonical `owner/name` — non-empty owner over the
`[\w-]` class, a `/`, and a non-empty name over the `[\w.-]` class — and
never ends in a path separator; and when no locator is present,
`subscribe_repoW W` rejects the input with the 400 `invalidUrl` outcome. -/
theorem extract_repo_contract (W : Char → Bool) (hW : W '/' = false) (s : String) :
    ((extract_repoW W s).isSome = true ↔ hasLocatorW W s) ∧
    (∀ k, extract_repoW W s = some k →
      ∃ owner rname, owner ≠ [] ∧ rname ≠ [] ∧
        (∀ c ∈ owner, ownerCharW W c = true) ∧ (∀ c ∈ rname, repoCharW W c = true) ∧
        k = (owner ++ '/' :: rname).asString ∧ k.toList.getLast? ≠ some '/') ∧
    (∀ st : AppState, extract_repoW W s = none →
      subscribe_repoW W st s = (st, .invalidUrl)) := by
  have h1 := searchLocW_isSome_iff W s.toList
  refine ⟨?_, ?_, ?_⟩
  · rw [extract_repoW]
    constructor
    · intro h
      apply h1.mp
      cases hs : searchLocW W s.toList with
      | none =>
          rw [hs] at h
          simp at h
      | some g => simp [hs]
    · intro h
      have h2 := h1.mpr h
      cases hs : searchLocW W s.toList with
      | none =>
          rw [hs] at h2
          simp at h2
      | some g => simp [hs]
  · intro k hk
    rw [extract_repoW] at hk
    cases hs : searchLocW W s.toList with
    | none =>
        rw [hs] at hk
        simp at hk
    | some g =>
        rw [hs] at hk
        simp only [Option.map] at hk
        injection hk with hk2
        obtain ⟨owner, rname, ho1, ho2, ho3, ho4, ho5⟩ := searchLocW_shape W s.toList g hs
        obtain ⟨c, hc⟩ := Option.isSome_iff_exists.mp (List.getLast?_isSome.mpr ho2)
        have hcmem : c ∈ rname := by
          obtain ⟨hh, hx⟩ := List.mem_getLast?_eq_getLast (show c ∈ rname.getLast? from hc)
          rw [hx]
          exact List.getLast_mem hh
        have hcrepo : repoCharW W c = true := ho4 c hcmem
        have hcne : ¬c = '/' := by
          intro hx
          rw [hx, repoCharW, hW] at hcrepo
          exact absurd hcrepo (by decide)
        have hglast : g.getLast? = some c := by
          rw [ho5, List.append_cons, List.getLast?_append_of_ne_nil _ ho2]
          exact hc
        have hstrip : rstripSlash g = g := rstripSlash_eq_self g c hglast hcne
        refine ⟨owner, rname, ho1, ho2, ho3, ho4, ?_, ?_⟩
        · rw [← hk2, hstrip, ho5]
        · rw [← hk2, hstrip]
          have hdata : (g.asString).toList = g := rfl
          rw [hdata, hglast]
          intro hx
          injection hx with hx2
          exact hcne hx2
  · intro st hn
    rw [subscribe_repoW, hn]

/-- Witness for `extract_repo_contract`: the word-class hypothesis and the
two fallible parts discharged at the ASCII instantiation on concrete ASCII
inputs, where the ASCII restriction agrees with Python word class. -/
theorem extract_repo_contract_witness :
    isWordChar '/' = false ∧
    (∃ owner rname, owner ≠ [] ∧ rname ≠ [] ∧
      (∀ c ∈ owner, ownerCharW isWordChar c = true) ∧
      (∀ c ∈ rname, repoCharW isWordChar c = true) ∧
      "a/b" = (owner ++ '/' :: rname).asString ∧
      ("a/b" : String).toList.getLast? ≠ some '/') ∧
    subscribe_repoW isWordChar ⟨[], [], []⟩ "no locator" = (⟨[], [], []⟩, .invalidUrl) :=
  ⟨by decide,
   (extract_repo_contract isWordChar (by decide) "https://github.com/a/b").2.1
     "a/b" (by decide),
   (extract_repo_contract isWordChar (by decide) "no locator").2.2
     ⟨[], [], []⟩ (by decide)⟩
